import Mathlib

/-!
Verification of `single_page_crawl.py` (repository `Caspian01/single-page-crawler`)
against its natural-language specification.

Strings are embedded as `List Char` (a Python `str` is a sequence of code points;
all inputs exercised here are ASCII, so the ASCII whitespace model of `str.strip`
is faithful).  Fallible operations (HTTP fetch, page navigation) are embedded by
passing their outcome as an `Except` value; the element lists delivered by
BeautifulSoup / Playwright are embedded as explicit lists of attribute records,
since the HTML parser and the browser are external collaborators.
-/

/-- Code points of a string literal, the embedding of a Python `str`. -/
def strL (s : String) : List Char := s.toList

/-- ASCII whitespace, the character class stripped by Python `str.strip()`
(restricted to ASCII, which covers every string handled here). -/
def isPySpace (c : Char) : Bool :=
  c = ' ' || c = '\t' || c = '\n' || c = '\x0d' || c = '\x0b' || c = '\x0c'

/-- Model of Python `s.strip()`: remove leading and trailing whitespace. -/
def pyStrip (s : List Char) : List Char :=
  ((s.dropWhile isPySpace).reverse.dropWhile isPySpace).reverse

/-- Model of Python `s.rstrip("/")`: remove every trailing `'/'`. -/
def rstripSlashes (s : List Char) : List Char :=
  (s.reverse.dropWhile (fun c => c = '/')).reverse

/-- Model of Python `s.split("#")[0]`: the part before the first `'#'`. -/
def beforeHash (s : List Char) : List Char := s.takeWhile (fun c => c != '#')

/-- Model of Python `s.split("?")[0]`: the part before the first `'?'`. -/
def beforeQuery (s : List Char) : List Char := s.takeWhile (fun c => c != '?')

/-- `normalize_url` from `single_page_crawl.py` (both crawler classes define the
same body): `if not url: return ""` then
`url.rstrip("/").split("#")[0].split("?")[0]`. -/
def normalize_url (url : List Char) : List Char :=
  if url = [] then [] else beforeQuery (beforeHash (rstripSlashes url))

/-- Spec-side formulation: truncate a string at the first occurrence of `stop`
(drop everything from that character onward). -/
def truncAtSpec (stop : Char) : List Char → List Char
  | [] => []
  | c :: cs => if c = stop then [] else c :: truncAtSpec stop cs

/-- Spec-side formulation: remove all trailing `'/'` characters, recursing from
the front of the string. -/
def stripTrailingSlashesSpec : List Char → List Char
  | [] => []
  | c :: cs =>
    let r := stripTrailingSlashesSpec cs
    if r = [] ∧ c = '/' then [] else c :: r

/-- Recognize `scheme://rest` by locating the first `"://"`; returns the scheme
and the remainder.  Model of the scheme/netloc split performed by
`urllib.parse.urlparse` on the absolute http(s) URLs this program handles. -/
def splitSchemeAux : List Char → Option (List Char × List Char)
  | ':' :: '/' :: '/' :: r => some ([], r)
  | c :: cs =>
    match splitSchemeAux cs with
    | some p => some (c :: p.1, p.2)
    | none => none
  | [] => none

/-- A character ending the network-location component of a URL. -/
def netlocStop (c : Char) : Bool := c = '/' || c = '?' || c = '#'

/-- The components of `urllib.parse.urlparse` used by the crawler. -/
structure ParsedUrl where
  scheme : List Char
  netloc : List Char
  rest : List Char
deriving DecidableEq

/-- Model of `urllib.parse.urlparse` restricted to what the crawler reads
(`scheme` and `netloc`), for URLs whose first `':'` starts a `"://"`
separator; a URL without `"://"` parses with empty scheme and netloc. -/
def urlparse (u : List Char) : ParsedUrl :=
  match splitSchemeAux u with
  | none => ⟨[], [], u⟩
  | some p => ⟨p.1, p.2.takeWhile (fun c => !netlocStop c), p.2.dropWhile (fun c => !netlocStop c)⟩

/-- The prefix of a path up to and including its last `'/'` (empty when the
path has no `'/'`). -/
def dirPrefix (path : List Char) : List Char :=
  (path.reverse.dropWhile (fun c => c != '/')).reverse

/-- Model of `urllib.parse.urljoin` for the cases the crawler exercises: an
absolute reference (it has a scheme) is returned unchanged; otherwise the
reference is resolved against the base's scheme, netloc and directory
(protocol-relative, root-relative and plain relative paths; `"."`/`".."`
segment removal is not modelled as no claim exercises it). -/
def urljoin (base href : List Char) : List Char :=
  match splitSchemeAux href with
  | some _ => href
  | none =>
    let p := urlparse base
    if (strL "//").isPrefixOf href then p.scheme ++ [':'] ++ href
    else if (strL "/").isPrefixOf href then p.scheme ++ strL "://" ++ p.netloc ++ href
    else
      let basePath := p.rest.takeWhile (fun c => c != '?' && c != '#')
      let dir := dirPrefix basePath
      let dir2 := if dir = [] then strL "/" else dir
      p.scheme ++ strL "://" ++ p.netloc ++ dir2 ++ href

/-- Model of Python `s.replace("www.", "")`: delete every non-overlapping
occurrence of `"www."`, scanning left to right — exactly the
`parsed.netloc.replace("www.", "")` call in both `get_links` methods. -/
def replaceWww : List Char → List Char
  | 'w' :: 'w' :: 'w' :: '.' :: rest => replaceWww rest
  | c :: rest => c :: replaceWww rest
  | [] => []

/-- Model of Python's substring test `pat in s`. -/
def isSubstringB (pat : List Char) : List Char → Bool
  | [] => pat.isEmpty
  | c :: cs => pat.isPrefixOf (c :: cs) || isSubstringB pat cs

/-- `new_source_url = f"{parsed.scheme}://{domain}"` with
`domain = parsed.netloc.replace("www.", "")`, as computed at the top of both
`get_links` methods. -/
def newSourceUrl (source_url : List Char) : List Char :=
  let p := urlparse source_url
  p.scheme ++ strL "://" ++ replaceWww p.netloc

/-- Spec-side formulation of the domain test in the claims: a host with one
leading `"www."` stripped. -/
def stripLeadingWww (host : List Char) : List Char :=
  if (strL "www.").isPrefixOf host then host.drop 4 else host

/-- A Python exception value (the crawler only ever prints its message). -/
abbrev PyErr := List Char

/-- A BeautifulSoup element as read by `SimpleHTTPCrawler.get_links`:
`find_all(['a', 'link'], href=True)` guarantees an `href` attribute; `text` is
the raw inner text (`get_text(strip=True)` strips it), and the remaining
attributes default to the empty string (`class` is the space-joined list). -/
structure Element where
  name : List Char
  href : List Char
  text : List Char
  classAttr : List Char
  idAttr : List Char
  title : List Char
  target : List Char
deriving DecidableEq

/-- A Playwright element handle as read by `LinkCrawler.get_links`: selected by
`query_selector_all("[href]")`; `innerText` raw, `tagName` already lower-cased
by the `el.tagName.toLowerCase()` evaluation, attribute reads defaulted to
`""` by the `or ""` in the source. -/
structure DynElement where
  href : List Char
  innerText : List Char
  isVisible : Bool
  tagName : List Char
  classAttr : List Char
  idAttr : List Char
  title : List Char
  target : List Char
deriving DecidableEq

/-- The `element_info` dict built by both `get_links` methods, field for field
(`class` and `id` are rendered `classAttr` / `idAttr` to avoid keywords). -/
structure LinkRec where
  init_url : List Char
  anchor_text : List Char
  href : List Char
  is_visible : Bool
  tag_name : List Char
  classAttr : List Char
  idAttr : List Char
  title : List Char
  target : List Char
deriving DecidableEq

/-- The per-element loop of `SimpleHTTPCrawler.get_links`:
`anchor_text = link.get_text(strip=True) if link.name == 'a' else link.get('title', '')`,
skip on falsy `href`/`anchor_text`, keep when `new_source_url in href`, and emit
the record with `href = normalize_url(urljoin(source_url, href))` and
`is_visible = True`. -/
def SimpleHTTPCrawler.extractLinks (source_url new_source_url : List Char) :
    List Element → List LinkRec
  | [] => []
  | link :: rest =>
    let href := link.href
    let anchor_text := if link.name = strL "a" then pyStrip link.text else link.title
    let tail := SimpleHTTPCrawler.extractLinks source_url new_source_url rest
    if href = [] || anchor_text = [] then tail
    else if isSubstringB new_source_url href then
      ⟨source_url, anchor_text, normalize_url (urljoin source_url href), true,
        link.name, link.classAttr, link.idAttr, link.title, link.target⟩ :: tail
    else tail

/-- `SimpleHTTPCrawler.get_links`: the HTTP response is passed as its outcome;
on any load failure the method prints and re-raises (`raise e`), modelled as
propagating the error. -/
def SimpleHTTPCrawler.get_links (response : Except PyErr (List Element))
    (source_url : List Char) : Except PyErr (List LinkRec) :=
  match response with
  | Except.error e => Except.error e
  | Except.ok links =>
      Except.ok (SimpleHTTPCrawler.extractLinks source_url (newSourceUrl source_url) links)

/-- `SimpleHTTPCrawler.crawl_multiple_sources`: iterates the sources building
`all_results`; `get_links` is called outside any handler, so an error aborts
the whole loop. -/
def SimpleHTTPCrawler.crawl_multiple_sources
    (fetch : List Char → Except PyErr (List Element)) :
    List (List Char) → Except PyErr (List (List Char × List LinkRec))
  | [] => Except.ok []
  | u :: us =>
    match SimpleHTTPCrawler.get_links (fetch u) u with
    | Except.error e => Except.error e
    | Except.ok links =>
      match SimpleHTTPCrawler.crawl_multiple_sources fetch us with
      | Except.error e => Except.error e
      | Except.ok rest => Except.ok ((u, links) :: rest)

/-- The per-element loop of `LinkCrawler.get_links`:
`anchor_text = (await link.inner_text()).strip()` (falsy values skip), keep when
`new_source_url in href`, emit with the element's computed visibility. -/
def LinkCrawler.extractLinks (source_url new_source_url : List Char) :
    List DynElement → List LinkRec
  | [] => []
  | link :: rest =>
    let href := link.href
    let anchor_text := pyStrip link.innerText
    let tail := LinkCrawler.extractLinks source_url new_source_url rest
    if href = [] || anchor_text = [] then tail
    else if isSubstringB new_source_url href then
      ⟨source_url, anchor_text, normalize_url (urljoin source_url href), link.isVisible,
        link.tagName, link.classAttr, link.idAttr, link.title, link.target⟩ :: tail
    else tail

/-- `LinkCrawler.get_links`: the page navigation plus element enumeration is
passed as its outcome; the surrounding `try` turns any page-level failure into
`return []`. -/
def LinkCrawler.get_links (page : Except PyErr (List DynElement))
    (source_url : List Char) : List LinkRec :=
  match page with
  | Except.error _ => []
  | Except.ok links => LinkCrawler.extractLinks source_url (newSourceUrl source_url) links

/-- `LinkCrawler.crawl_multiple_sources`: total, since `get_links` absorbs every
page-level failure. -/
def LinkCrawler.crawl_multiple_sources
    (page : List Char → Except PyErr (List DynElement)) :
    List (List Char) → List (List Char × List LinkRec)
  | [] => []
  | u :: us => (u, LinkCrawler.get_links (page u) u) :: crawl_multiple_sources page us

/-- `main_playwright(source_url)`: enters `LinkCrawler` (whose `__aenter__` may
raise on launch — the outcome is passed as `launch`) then crawls the single
source; the crawl itself never raises. -/
def main_playwright (launch : Except PyErr Unit)
    (page : List Char → Except PyErr (List DynElement))
    (source_url : List Char) : Except PyErr (List (List Char × List LinkRec)) :=
  match launch with
  | Except.error e => Except.error e
  | Except.ok _ => Except.ok (LinkCrawler.crawl_multiple_sources page [source_url])

/-- `main_http(source_url)`: crawls the single source with `SimpleHTTPCrawler`;
load failures propagate. -/
def main_http (fetch : List Char → Except PyErr (List Element))
    (source_url : List Char) : Except PyErr (List (List Char × List LinkRec)) :=
  SimpleHTTPCrawler.crawl_multiple_sources fetch [source_url]

/-- Python dict lookup `results.get(source_url, [])` over an association list
(a dict has unique keys). -/
def lookupD (results : List (List Char × List LinkRec)) (k : List Char) : List LinkRec :=
  match results with
  | [] => []
  | p :: ps => if p.1 = k then p.2 else lookupD ps k

/-- The two anchor-text filters of `process_results`:
`df[df["anchor_text"].str.strip() != ""]` then
`df[df["anchor_text"] != "[No text]"]` — note the second compares the RAW
anchor text. -/
def retained (l : List LinkRec) : List LinkRec :=
  (l.filter (fun r => !(pyStrip r.anchor_text == []))).filter
    (fun r => !(r.anchor_text == strL "[No text]"))

/-- The groupby key `["init_url", "anchor_text", "href"]`. -/
abbrev LKey := List Char × List Char × List Char

/-- The key of a record. -/
def keyOf (r : LinkRec) : LKey := (r.init_url, r.anchor_text, r.href)

/-- Strict code-point-lexicographic comparison of strings, the comparison
pandas applies to string group keys. -/
def strLtB : List Char → List Char → Bool
  | [], [] => false
  | [], _ :: _ => true
  | _ :: _, [] => false
  | a :: as, b :: bs => if a < b then true else if b < a then false else strLtB as bs

/-- Lexicographic combination of two strict comparisons on a pair. -/
def lexLtB [DecidableEq α] (ltA : α → α → Bool) (ltB : β → β → Bool) (p q : α × β) : Bool :=
  if p.1 = q.1 then ltB p.2 q.2 else ltA p.1 q.1

/-- Strict lexicographic comparison of group keys (level by level). -/
def keyLtB : LKey → LKey → Bool := lexLtB strLtB (lexLtB strLtB strLtB)

/-- Non-strict key comparison. -/
def keyLeB (k1 k2 : LKey) : Bool := !(keyLtB k2 k1)

/-- Insertion into a list sorted by `le` (placed before the first element it
compares `le` to — a stable insertion). -/
def insertSorted (le : α → α → Bool) (a : α) : List α → List α
  | [] => [a]
  | b :: bs => if le a b then a :: b :: bs else b :: insertSorted le a bs

/-- Stable insertion sort by `le`. -/
def insertionSort (le : α → α → Bool) : List α → List α
  | [] => []
  | a :: as => insertSorted le a (insertionSort le as)

/-- One row of the grouped DataFrame produced by
`groupby([...]).size().reset_index(name="count")`. -/
structure OutRow where
  init_url : List Char
  anchor_text : List Char
  href : List Char
  count : Nat
deriving DecidableEq

/-- The key columns of an output row. -/
def rowKey (row : OutRow) : LKey := (row.init_url, row.anchor_text, row.href)

/-- The row of one group: its key columns plus the group's cardinality. -/
def mkRow (l : List LinkRec) (k : LKey) : OutRow :=
  ⟨k.1, k.2.1, k.2.2, l.countP (fun r => keyOf r == k)⟩

/-- `df.groupby(["init_url", "anchor_text", "href"]).size().reset_index(name="count")`:
one row per distinct key, keys in ascending lexicographic order (pandas sorts
group keys), `count` the number of rows sharing the key. -/
def groupRows (l : List LinkRec) : List OutRow :=
  (insertionSort keyLeB (l.map keyOf).dedup).map (mkRow l)

/-- `sort_values(by="count", ascending=False)` — a single-key sort with
pandas' default, stability-UNSPECIFIED quicksort (numpy insertion-sorts only
partitions of at most 16 elements); modelled as an insertion sort.  Only the
count ordering of the output is asserted universally below; no theorem claims
a tie order beyond concrete inputs small enough for numpy's insertion sort. -/
def sortByCountDesc (rows : List OutRow) : List OutRow :=
  insertionSort (fun a b => Nat.ble b.count a.count) rows

/-- The column labels of the result DataFrame (identical on both branches of
`process_results`). -/
def outCols : List (List Char) :=
  [strL "init_url", strL "anchor_text", strL "href", strL "count"]

/-- A DataFrame as `process_results` returns it: column labels plus rows. -/
structure OutFrame where
  cols : List (List Char)
  rows : List OutRow
deriving DecidableEq

/-- `process_results(results, source_url, limit)`: look up the batch (default
`[]`), return an empty frame when it is empty, otherwise filter anchor texts,
group, sort by count descending and truncate with `head(limit)`. -/
def process_results (results : List (List Char × List LinkRec))
    (source_url : List Char) (limit : Nat) : OutFrame :=
  let link_list := lookupD results source_url
  if link_list = [] then ⟨outCols, []⟩
  else ⟨outCols, (sortByCountDesc (groupRows (retained link_list))).take limit⟩

/-- The two extraction backends. -/
inductive Backend
  | dynamic
  | «static»
deriving DecidableEq

/-- The `Run Crawler` handler at the bottom of the script: one backend is
chosen by the module-level `PLAYWRIGHT_AVAILABLE` probe; the chosen pipeline
runs inside a `try` whose handler shows the error and leaves `df = pd.DataFrame()`
(an empty frame with NO columns).  The second component records which backends
were invoked. -/
def run_crawl (probe : Bool) (launch : Except PyErr Unit)
    (page : List Char → Except PyErr (List DynElement))
    (fetch : List Char → Except PyErr (List Element))
    (url : List Char) (limit : Nat) : OutFrame × List Backend :=
  if probe then
    match main_playwright launch page url with
    | Except.ok results => (process_results results url limit, [Backend.dynamic])
    | Except.error _ => (⟨[], []⟩, [Backend.dynamic])
  else
    match main_http fetch url with
    | Except.ok results => (process_results results url limit, [Backend.static])
    | Except.error _ => (⟨[], []⟩, [Backend.static])

/-- Visibility rewriting used to state that the pipeline ignores `is_visible`. -/
def setVis (g : LinkRec → Bool) (r : LinkRec) : LinkRec :=
  ⟨r.init_url, r.anchor_text, r.href, g r, r.tag_name, r.classAttr, r.idAttr, r.title, r.target⟩

/-- Spec-side formulation of "retained" in the claims: records surviving the
visibility filter AND the anchor-text filters (trimmed text nonempty and the
trimmed text not the `"[No text]"` sentinel). -/
def specRetained (l : List LinkRec) : List LinkRec :=
  (l.filter (fun r => r.is_visible)).filter
    (fun r => !(pyStrip r.anchor_text == []) && !(pyStrip r.anchor_text == strL "[No text]"))

/-- Concrete sample values used in the closed instance theorems below. -/
def srcA : List Char := strL "https://a.com"

/-- A same-site anchor element. -/
def homeElem : Element := ⟨strL "a", strL "https://a.com/x", strL "Home", [], [], [], []⟩

/-- An element whose raw href merely CONTAINS `https://a.com` as a substring
while pointing at the foreign host `a.com.evil.com`. -/
def evilElem : Element := ⟨strL "a", strL "https://a.com.evil.com/x", strL "e", [], [], [], []⟩

/-- The record the crawler emits for `evilElem`. -/
def evilRec : LinkRec :=
  ⟨strL "https://a.com", strL "e", strL "https://a.com.evil.com/x", true, strL "a",
    [], [], [], []⟩

/-- A visible record with ordinary anchor text. -/
def homeRec : LinkRec :=
  ⟨strL "https://a.com", strL "Home", strL "https://a.com/h", true, strL "a",
    [], [], [], []⟩

/-- A record whose `is_visible` is `false`. -/
def invisRec : LinkRec :=
  ⟨strL "https://a.com", strL "Home", strL "https://a.com/h", false, strL "a",
    [], [], [], []⟩

/-- A record whose anchor text trims to the `"[No text]"` sentinel but is not
literally equal to it. -/
def sentinelRec : LinkRec :=
  ⟨strL "https://a.com", strL " [No text]", strL "https://a.com/z", true, strL "a",
    [], [], [], []⟩

/-- Tie pair: anchor `"a"` with the lexicographically LARGER href. -/
def tieRecA : LinkRec :=
  ⟨strL "https://a.com", strL "a", strL "https://a.com/z", true, strL "a", [], [], [], []⟩

/-- Tie pair: anchor `"b"` with the lexicographically SMALLER href. -/
def tieRecB : LinkRec :=
  ⟨strL "https://a.com", strL "b", strL "https://a.com/a", true, strL "a", [], [], [], []⟩

/-! ### Generic facts about the stable insertion sort -/

theorem mem_insertSorted (le : α → α → Bool) (x : α) (m : List α) (a : α) :
    a ∈ insertSorted le x m ↔ a = x ∨ a ∈ m := by
  induction m with
  | nil => simp [insertSorted]
  | cons b bs ih =>
    simp only [insertSorted]
    split
    · simp [List.mem_cons]
    · simp only [List.mem_cons, ih]
      tauto

theorem insertSorted_perm (le : α → α → Bool) (x : α) (m : List α) :
    (insertSorted le x m).Perm (x :: m) := by
  induction m with
  | nil => exact List.Perm.refl _
  | cons b bs ih =>
    simp only [insertSorted]
    split
    · exact List.Perm.refl _
    · exact (ih.cons b).trans (List.Perm.swap x b bs)

theorem insertionSort_perm (le : α → α → Bool) (l : List α) :
    (insertionSort le l).Perm l := by
  induction l with
  | nil => exact List.Perm.refl _
  | cons a as ih => exact (insertSorted_perm le a _).trans (ih.cons a)

theorem mem_insertionSort (le : α → α → Bool) (l : List α) (a : α) :
    a ∈ insertionSort le l ↔ a ∈ l :=
  (insertionSort_perm le l).mem_iff

theorem pairwise_insertSorted (le : α → α → Bool)
    (htot : ∀ a b, le a b = false → le b a = true)
    (htr : ∀ a b c, le a b = true → le b c = true → le a c = true)
    (x : α) (m : List α) (hm : m.Pairwise (fun a b => le a b = true)) :
    (insertSorted le x m).Pairwise (fun a b => le a b = true) := by
  induction m with
  | nil => simp [insertSorted]
  | cons b bs ih =>
    rcases List.pairwise_cons.mp hm with ⟨hb, hbs⟩
    simp only [insertSorted]
    split
    case isTrue hle =>
      refine List.pairwise_cons.mpr ⟨?_, hm⟩
      intro y hy
      rcases List.mem_cons.mp hy with rfl | hy
      · exact hle
      · exact htr x b y hle (hb y hy)
    case isFalse hle =>
      refine List.pairwise_cons.mpr ⟨?_, ih hbs⟩
      intro y hy
      rcases (mem_insertSorted le x bs y).mp hy with rfl | hy
      · exact htot y b (Bool.eq_false_iff.mpr hle)
      · exact hb y hy

theorem pairwise_insertionSort (le : α → α → Bool)
    (htot : ∀ a b, le a b = false → le b a = true)
    (htr : ∀ a b c, le a b = true → le b c = true → le a c = true)
    (l : List α) : (insertionSort le l).Pairwise (fun a b => le a b = true) := by
  induction l with
  | nil => simp [insertionSort]
  | cons a as ih => exact pairwise_insertSorted le htot htr a _ ih

/-! ### The string and key orders are strict linear orders (boolean form) -/

theorem char_eq_of_not_lt {a b : Char} (h1 : ¬ a < b) (h2 : ¬ b < a) : a = b :=
  le_antisymm (not_lt.mp h2) (not_lt.mp h1)

theorem strLtB_nil_right : ∀ a : List Char, strLtB a [] = false
  | [] => rfl
  | _ :: _ => rfl

theorem strLtB_asymm : ∀ a b : List Char, strLtB a b = true → strLtB b a = false
  | [], [] => by simp [strLtB]
  | [], _ :: _ => by simp [strLtB]
  | _ :: _, [] => by simp [strLtB]
  | a :: as, b :: bs => by
    simp only [strLtB]
    by_cases h1 : a < b
    · simp [h1, lt_asymm h1]
    · by_cases h2 : b < a
      · simp [h1, h2]
      · simp only [if_neg h1, if_neg h2]
        exact strLtB_asymm as bs

theorem strLtB_trans : ∀ a b c : List Char,
    strLtB a b = true → strLtB b c = true → strLtB a c = true
  | _, b, [] => by
    intro _ h2
    rw [strLtB_nil_right b] at h2
    exact absurd h2 Bool.false_ne_true
  | a, [], _ :: _ => by
    intro h1 _
    rw [strLtB_nil_right a] at h1
    exact absurd h1 Bool.false_ne_true
  | [], _ :: _, _ :: _ => by simp [strLtB]
  | a :: as, b :: bs, c :: cs => by
    simp only [strLtB]
    by_cases h1 : a < b
    · by_cases h2 : b < c
      · simp [lt_trans h1 h2]
      · by_cases h3 : c < b
        · simp [h2, h3]
        · have hbc : b = c := char_eq_of_not_lt h2 h3
          subst hbc
          simp [h1]
    · by_cases h1' : b < a
      · simp [h1, h1']
      · have hab : a = b := char_eq_of_not_lt h1 h1'
        subst hab
        by_cases h2 : a < c
        · simp [h2]
        · by_cases h3 : c < a
          · simp [h2, h3]
          · simp only [if_neg h1, if_neg h2, if_neg h3]
            exact strLtB_trans as bs cs

theorem strLtB_connex : ∀ a b : List Char,
    strLtB a b = false → strLtB b a = false → a = b
  | [], [] => fun _ _ => rfl
  | [], _ :: _ => by simp [strLtB]
  | _ :: _, [] => by simp [strLtB]
  | a :: as, b :: bs => by
    simp only [strLtB]
    by_cases h1 : a < b
    · simp [h1]
    · by_cases h2 : b < a
      · simp [h1, h2]
      · have hab : a = b := char_eq_of_not_lt h1 h2
        subst hab
        simp only [h1, if_neg h1, if_false]
        intro hx hy
        rw [strLtB_connex as bs hx hy]

theorem lexLtB_asymm [DecidableEq α] {ltA : α → α → Bool} {ltB : β → β → Bool}
    (hA : ∀ a b, ltA a b = true → ltA b a = false)
    (hB : ∀ a b, ltB a b = true → ltB b a = false) :
    ∀ p q, lexLtB ltA ltB p q = true → lexLtB ltA ltB q p = false := by
  intro p q h
  unfold lexLtB at h ⊢
  by_cases e : p.1 = q.1
  · rw [if_pos e] at h
    rw [if_pos e.symm]
    exact hB _ _ h
  · rw [if_neg e] at h
    rw [if_neg (fun e2 => e e2.symm)]
    exact hA _ _ h

theorem lexLtB_trans [DecidableEq α] {ltA : α → α → Bool} {ltB : β → β → Bool}
    (hAt : ∀ a b c, ltA a b = true → ltA b c = true → ltA a c = true)
    (hAa : ∀ a b, ltA a b = true → ltA b a = false)
    (hBt : ∀ a b c, ltB a b = true → ltB b c = true → ltB a c = true) :
    ∀ p q r, lexLtB ltA ltB p q = true → lexLtB ltA ltB q r = true →
      lexLtB ltA ltB p r = true := by
  intro p q r h1 h2
  unfold lexLtB at h1 h2 ⊢
  by_cases e1 : p.1 = q.1 <;> by_cases e2 : q.1 = r.1
  · rw [if_pos e1] at h1
    rw [if_pos e2] at h2
    rw [if_pos (e1.trans e2)]
    exact hBt _ _ _ h1 h2
  · rw [if_neg e2] at h2
    rw [if_neg (fun e3 => e2 (e1.symm.trans e3)), e1]
    exact h2
  · rw [if_neg e1] at h1
    rw [if_neg (fun e3 => e1 (e3.trans e2.symm)), ← e2]
    exact h1
  · rw [if_neg e1] at h1
    rw [if_neg e2] at h2
    have hac : ltA p.1 r.1 = true := hAt _ _ _ h1 h2
    have hne : p.1 ≠ r.1 := by
      intro e3
      rw [e3] at h1
      have h4 := hAa _ _ h2
      rw [h1] at h4
      simp at h4
    rw [if_neg hne]
    exact hac

theorem lexLtB_connex [DecidableEq α] {ltA : α → α → Bool} {ltB : β → β → Bool}
    (hAc : ∀ a b, ltA a b = false → ltA b a = false → a = b)
    (hBc : ∀ a b, ltB a b = false → ltB b a = false → a = b) :
    ∀ p q, lexLtB ltA ltB p q = false → lexLtB ltA ltB q p = false → p = q := by
  intro p q h1 h2
  unfold lexLtB at h1 h2
  by_cases e : p.1 = q.1
  · rw [if_pos e] at h1
    rw [if_pos e.symm] at h2
    exact Prod.ext e (hBc _ _ h1 h2)
  · rw [if_neg e] at h1
    rw [if_neg (fun e2 => e e2.symm)] at h2
    exact absurd (hAc _ _ h1 h2) e

theorem keyLtB_asymm : ∀ k1 k2 : LKey, keyLtB k1 k2 = true → keyLtB k2 k1 = false :=
  lexLtB_asymm strLtB_asymm (lexLtB_asymm strLtB_asymm strLtB_asymm)

theorem keyLtB_trans : ∀ k1 k2 k3 : LKey,
    keyLtB k1 k2 = true → keyLtB k2 k3 = true → keyLtB k1 k3 = true :=
  lexLtB_trans strLtB_trans strLtB_asymm
    (lexLtB_trans strLtB_trans strLtB_asymm strLtB_trans)

theorem keyLtB_connex : ∀ k1 k2 : LKey,
    keyLtB k1 k2 = false → keyLtB k2 k1 = false → k1 = k2 :=
  lexLtB_connex strLtB_connex (lexLtB_connex strLtB_connex strLtB_connex)

theorem keyLeB_total : ∀ k1 k2 : LKey, keyLeB k1 k2 = false → keyLeB k2 k1 = true := by
  intro k1 k2 h
  unfold keyLeB at h ⊢
  rw [Bool.not_eq_false'] at h
  rw [Bool.not_eq_true', keyLtB_asymm k2 k1 h]

theorem keyLeB_trans : ∀ k1 k2 k3 : LKey,
    keyLeB k1 k2 = true → keyLeB k2 k3 = true → keyLeB k1 k3 = true := by
  intro k1 k2 k3 h1 h2
  unfold keyLeB at h1 h2 ⊢
  rw [Bool.not_eq_true'] at h1 h2 ⊢
  by_cases hbc : keyLtB k2 k3 = true
  · by_cases hca : keyLtB k3 k1 = true
    · have hk : keyLtB k2 k1 = true := keyLtB_trans _ _ _ hbc hca
      rw [hk] at h1
      simp at h1
    · exact Bool.eq_false_iff.mpr hca
  · have hbc' : keyLtB k2 k3 = false := Bool.eq_false_iff.mpr hbc
    have : k2 = k3 := keyLtB_connex _ _ hbc' h2
    rw [← this]
    exact h1

theorem keyLt_of_le_ne {k1 k2 : LKey} (hle : keyLeB k1 k2 = true) (hne : k1 ≠ k2) :
    keyLtB k1 k2 = true := by
  unfold keyLeB at hle
  rw [Bool.not_eq_true'] at hle
  by_cases h : keyLtB k1 k2 = true
  · exact h
  · exact absurd (keyLtB_connex k1 k2 (Bool.eq_false_iff.mpr h) hle) hne

/-! ### Structure of the grouped rows -/

theorem rowKey_mkRow (l : List LinkRec) (k : LKey) : rowKey (mkRow l k) = k := rfl

theorem groupRows_pairwise (l : List LinkRec) :
    (groupRows l).Pairwise (fun a b => keyLtB (rowKey a) (rowKey b) = true) := by
  unfold groupRows
  rw [List.pairwise_map]
  have hper := insertionSort_perm keyLeB (l.map keyOf).dedup
  have hnd : (insertionSort keyLeB (l.map keyOf).dedup).Nodup :=
    hper.symm.nodup (List.nodup_dedup _)
  have hle := pairwise_insertionSort keyLeB keyLeB_total keyLeB_trans (l.map keyOf).dedup
  exact (hle.and hnd).imp (fun h => keyLt_of_le_ne h.1 h.2)

theorem mem_groupRows {l : List LinkRec} {row : OutRow} (h : row ∈ groupRows l) :
    row = mkRow l (rowKey row) ∧ rowKey row ∈ l.map keyOf := by
  unfold groupRows at h
  rcases List.mem_map.mp h with ⟨k, hk, rfl⟩
  rw [rowKey_mkRow]
  exact ⟨rfl, List.mem_dedup.mp ((mem_insertionSort _ _ _).mp hk)⟩

theorem process_results_rows (results : List (List Char × List LinkRec))
    (src : List Char) (limit : Nat) :
    (process_results results src limit).rows =
      if lookupD results src = [] then []
      else (sortByCountDesc (groupRows (retained (lookupD results src)))).take limit := by
  unfold process_results
  by_cases he : lookupD results src = []
  · simp [he]
  · simp [he]

theorem process_results_cols (results : List (List Char × List LinkRec))
    (src : List Char) (limit : Nat) :
    (process_results results src limit).cols = outCols := by
  unfold process_results
  by_cases he : lookupD results src = []
  · simp [he]
  · simp [he]

theorem mem_processRows {results : List (List Char × List LinkRec)} {src : List Char}
    {limit : Nat} {row : OutRow}
    (h : row ∈ (process_results results src limit).rows) :
    row ∈ groupRows (retained (lookupD results src)) := by
  rw [process_results_rows] at h
  by_cases he : lookupD results src = []
  · rw [if_pos he] at h
    exact absurd h (List.not_mem_nil row)
  · rw [if_neg he] at h
    have h2 := List.take_subset limit _ h
    unfold sortByCountDesc at h2
    exact (mem_insertionSort _ _ _).mp h2

theorem mem_rows_spec {results : List (List Char × List LinkRec)} {src : List Char}
    {limit : Nat} {row : OutRow}
    (h : row ∈ (process_results results src limit).rows) :
    row.count = (retained (lookupD results src)).countP (fun r => keyOf r == rowKey row) ∧
      (∃ r ∈ retained (lookupD results src), keyOf r = rowKey row) := by
  rcases mem_groupRows (mem_processRows h) with ⟨heq, hk⟩
  refine ⟨?_, ?_⟩
  · conv_lhs => rw [heq]
    rfl
  · rcases List.mem_map.mp hk with ⟨r, hr, hkey⟩
    exact ⟨r, hr, hkey⟩

theorem mem_retained_filters {l : List LinkRec} {r : LinkRec} (h : r ∈ retained l) :
    pyStrip r.anchor_text ≠ [] ∧ r.anchor_text ≠ strL "[No text]" := by
  unfold retained at h
  rcases List.mem_filter.mp h with ⟨h1, h2⟩
  rcases List.mem_filter.mp h1 with ⟨_, h3⟩
  constructor
  · intro he
    simp [he] at h3
  · intro he
    simp [he] at h2

/-! ### Facts about `normalize_url` -/

theorem takeWhile_eq_truncAtSpec (stop : Char) : ∀ s : List Char,
    s.takeWhile (fun c => c != stop) = truncAtSpec stop s
  | [] => rfl
  | c :: cs => by
    simp only [List.takeWhile_cons, truncAtSpec]
    by_cases h : c = stop
    · simp [h]
    · simp [h, takeWhile_eq_truncAtSpec stop cs]

theorem rstripSlashes_eq_spec : ∀ s : List Char,
    rstripSlashes s = stripTrailingSlashesSpec s
  | [] => rfl
  | c :: cs => by
    have ih := rstripSlashes_eq_spec cs
    simp only [stripTrailingSlashesSpec]
    unfold rstripSlashes
    rw [List.reverse_cons, List.dropWhile_append]
    by_cases hnil : (cs.reverse.dropWhile (fun x => x = '/')).isEmpty
    · rw [if_pos hnil]
      have hcs : stripTrailingSlashesSpec cs = [] := by
        rw [← ih]
        unfold rstripSlashes
        rw [List.isEmpty_iff.mp hnil]
        rfl
      by_cases hc : c = '/'
      · simp [List.dropWhile, hc, hcs]
      · simp [List.dropWhile, hc, hcs]
    · rw [if_neg hnil]
      have hcs : stripTrailingSlashesSpec cs ≠ [] := by
        rw [← ih]
        unfold rstripSlashes
        intro he
        rw [List.reverse_eq_nil_iff] at he
        rw [he] at hnil
        exact hnil rfl
      rw [List.reverse_append]
      simp only [List.reverse_cons, List.reverse_nil, List.nil_append, List.singleton_append]
      rw [if_neg (fun hand => hcs hand.1)]
      rw [← ih]
      rfl

theorem normalize_url_eq_spec (u : List Char) :
    normalize_url u = truncAtSpec '?' (truncAtSpec '#' (stripTrailingSlashesSpec u)) := by
  by_cases h : u = []
  · subst h
    rfl
  · simp only [normalize_url, if_neg h, beforeQuery, beforeHash,
      takeWhile_eq_truncAtSpec, rstripSlashes_eq_spec]

theorem mem_rstripSlashes {x : Char} {s : List Char} (h : x ∈ rstripSlashes s) : x ∈ s := by
  unfold rstripSlashes at h
  rw [List.mem_reverse] at h
  exact List.mem_reverse.mp ((List.dropWhile_sublist _).subset h)

theorem mem_beforeHash {x : Char} {s : List Char} (h : x ∈ beforeHash s) : x ∈ s :=
  (List.takeWhile_sublist _).subset h

theorem mem_beforeQuery {x : Char} {s : List Char} (h : x ∈ beforeQuery s) : x ∈ s :=
  (List.takeWhile_sublist _).subset h

theorem normalize_url_no_hash_query (u : List Char) :
    '#' ∉ normalize_url u ∧ '?' ∉ normalize_url u := by
  unfold normalize_url
  by_cases h : u = []
  · simp [h]
  · rw [if_neg h]
    constructor
    · intro hm
      have h2 : ('#' : Char) ∈ (rstripSlashes u).takeWhile (fun c => c != '#') :=
        mem_beforeQuery hm
      have h3 := List.mem_takeWhile_imp h2
      simp at h3
    · intro hm
      have h2 : ('?' : Char) ∈ (beforeHash (rstripSlashes u)).takeWhile (fun c => c != '?') := hm
      have h3 := List.mem_takeWhile_imp h2
      simp at h3

theorem normalize_url_of_no_hash_query {v : List Char} (h1 : '#' ∉ v) (h2 : '?' ∉ v) :
    normalize_url v = rstripSlashes v := by
  by_cases h : v = []
  · subst h
    rfl
  · have hsub : ∀ x ∈ rstripSlashes v, x ∈ v := fun x hx => mem_rstripSlashes hx
    have e1 : beforeHash (rstripSlashes v) = rstripSlashes v := by
      unfold beforeHash
      refine List.takeWhile_eq_self_iff.mpr ?_
      intro x hx
      have : x ≠ '#' := fun he => h1 (he ▸ hsub x hx)
      simp [this]
    have e2 : beforeQuery (rstripSlashes v) = rstripSlashes v := by
      unfold beforeQuery
      refine List.takeWhile_eq_self_iff.mpr ?_
      intro x hx
      have : x ≠ '?' := fun he => h2 (he ▸ hsub x hx)
      simp [this]
    simp only [normalize_url, if_neg h, e1, e2]

theorem dropWhile_idem (p : Char → Bool) : ∀ l : List Char,
    (l.dropWhile p).dropWhile p = l.dropWhile p
  | [] => rfl
  | c :: cs => by
    by_cases h : p c
    · simp [List.dropWhile_cons, h, dropWhile_idem p cs]
    · simp [List.dropWhile_cons, h]

theorem rstripSlashes_idem (s : List Char) :
    rstripSlashes (rstripSlashes s) = rstripSlashes s := by
  unfold rstripSlashes
  rw [List.reverse_reverse, dropWhile_idem]

/-! ### The pipeline never reads `is_visible`; dictionary lookup facts -/

theorem retained_map_setVis (g : LinkRec → Bool) (l : List LinkRec) :
    retained (l.map (setVis g)) = (retained l).map (setVis g) := by
  unfold retained
  rw [List.filter_map, List.filter_map]
  rfl

theorem groupRows_map_setVis (g : LinkRec → Bool) (m : List LinkRec) :
    groupRows (m.map (setVis g)) = groupRows m := by
  unfold groupRows
  have hkeys : (m.map (setVis g)).map keyOf = m.map keyOf := by
    rw [List.map_map]
    rfl
  have hrow : mkRow (m.map (setVis g)) = mkRow m := by
    funext k
    unfold mkRow
    rw [List.countP_map]
    rfl
  rw [hkeys, hrow]

theorem lookupD_eq_nil_of_absent :
    ∀ (results : List (List Char × List LinkRec)) (src : List Char),
      (∀ p ∈ results, p.1 ≠ src) → lookupD results src = []
  | [], _, _ => rfl
  | p :: ps, src, h => by
    unfold lookupD
    rw [if_neg (h p (List.mem_cons_self p ps))]
    exact lookupD_eq_nil_of_absent ps src (fun q hq => h q (List.mem_cons_of_mem p hq))

/-! ### Every emitted record passed the substring gate -/

theorem extractLinks_http_spec (source_url new_source_url : List Char) :
    ∀ (elems : List Element) (r : LinkRec),
      r ∈ SimpleHTTPCrawler.extractLinks source_url new_source_url elems →
      ∃ h, isSubstringB new_source_url h = true ∧
        r.href = normalize_url (urljoin source_url h)
  | [], r => by simp [SimpleHTTPCrawler.extractLinks]
  | link :: rest, r => by
    intro hmem
    simp only [SimpleHTTPCrawler.extractLinks] at hmem
    split at hmem <;> split at hmem <;>
      first
      | exact extractLinks_http_spec source_url new_source_url rest r hmem
      | split at hmem <;>
          first
          | (rcases List.mem_cons.mp hmem with rfl | hmem
             exacts [⟨link.href, by assumption, rfl⟩,
               extractLinks_http_spec source_url new_source_url rest r hmem])
          | exact extractLinks_http_spec source_url new_source_url rest r hmem

theorem extractLinks_dyn_spec (source_url new_source_url : List Char) :
    ∀ (elems : List DynElement) (r : LinkRec),
      r ∈ LinkCrawler.extractLinks source_url new_source_url elems →
      ∃ h, isSubstringB new_source_url h = true ∧
        r.href = normalize_url (urljoin source_url h)
  | [], r => by simp [LinkCrawler.extractLinks]
  | link :: rest, r => by
    intro hmem
    simp only [LinkCrawler.extractLinks] at hmem
    split at hmem
    · exact extractLinks_dyn_spec source_url new_source_url rest r hmem
    · split at hmem
      case isTrue hsub =>
        rcases List.mem_cons.mp hmem with rfl | hmem
        · exact ⟨link.href, hsub, rfl⟩
        · exact extractLinks_dyn_spec source_url new_source_url rest r hmem
      case isFalse =>
        exact extractLinks_dyn_spec source_url new_source_url rest r hmem

/-! ### Claim theorems -/

/-- Claim C1 (amended): every LinkRecord emitted by either backend's link
extraction originates from an element whose RAW href passed the substring gate
`new_source_url in href` (with `new_source_url` the scheme plus the
`"www."`-stripped host), and its stored href is the normalized join of that raw
href.  The gate does NOT imply the same-site property of the original claim: a
foreign URL containing the base as a substring also passes, see
`C1_counterexample`. -/
theorem C1_theorem (source_url : List Char) :
    (∀ (elems : List Element) (out : List LinkRec) (r : LinkRec),
      SimpleHTTPCrawler.get_links (Except.ok elems) source_url = Except.ok out →
      r ∈ out →
      ∃ h, isSubstringB (newSourceUrl source_url) h = true ∧
        r.href = normalize_url (urljoin source_url h)) ∧
    (∀ (page : Except PyErr (List DynElement)) (r : LinkRec),
      r ∈ LinkCrawler.get_links page source_url →
      ∃ h, isSubstringB (newSourceUrl source_url) h = true ∧
        r.href = normalize_url (urljoin source_url h)) := by
  constructor
  · intro elems out r hok hmem
    have hout : SimpleHTTPCrawler.extractLinks source_url (newSourceUrl source_url) elems
        = out := Except.ok.inj hok
    rw [← hout] at hmem
    exact extractLinks_http_spec source_url (newSourceUrl source_url) elems r hmem
  · intro page r hmem
    cases page with
    | error e => exact absurd hmem (List.not_mem_nil r)
    | ok links => exact extractLinks_dyn_spec source_url (newSourceUrl source_url) links r hmem

/-- Closed instance of `C1_theorem` on a one-element page. -/
theorem C1_witness :
    ∃ h, isSubstringB (newSourceUrl srcA) h = true ∧
      (⟨srcA, strL "Home", strL "https://a.com/x", true, strL "a",
        [], [], [], []⟩ : LinkRec).href = normalize_url (urljoin srcA h) :=
  (C1_theorem srcA).1 [homeElem] _ _ rfl (by decide)

/-- Claim C1 is false as stated: from source `https://a.com`, an element with
raw href `https://a.com.evil.com/x` passes the substring gate and is emitted,
yet its host (`www.`-stripped) differs from the source's host. -/
theorem C1_counterexample :
    SimpleHTTPCrawler.get_links (Except.ok [evilElem]) srcA = Except.ok [evilRec] ∧
    stripLeadingWww (urlparse evilRec.href).netloc ≠
      stripLeadingWww (urlparse srcA).netloc :=
  ⟨rfl, by decide⟩

/-- Claim C2 (amended): `normalize_url` removes ALL trailing `'/'` characters
of the raw string FIRST, then everything from the first `'#'` onward, then
everything from the first `'?'` onward; consequently
`normalize("https://a.com/x/?q=1#f") = "https://a.com/x/"` — the path's
trailing slash survives because it is not at the end of the raw string. -/
theorem C2_theorem :
    (∀ u : List Char,
      normalize_url u = truncAtSpec '?' (truncAtSpec '#' (stripTrailingSlashesSpec u))) ∧
    normalize_url (strL "https://a.com/x/?q=1#f") = strL "https://a.com/x/" :=
  ⟨normalize_url_eq_spec, by decide⟩

/-- Claim C2 is false as stated: the spec's worked example evaluates to
`"https://a.com/x/"`, not `"https://a.com/x"`, and a double trailing slash is
removed entirely rather than singly. -/
theorem C2_counterexample :
    normalize_url (strL "https://a.com/x/?q=1#f") ≠ strL "https://a.com/x" ∧
    normalize_url (strL "https://a.com//") ≠ strL "https://a.com/" :=
  ⟨by decide, by decide⟩

/-- Claim C3 (amended): one application of `normalize_url` is NOT idempotent
(stripping the query or fragment can expose a trailing slash which only the
next application removes), but the function stabilizes from the second
application on: `normalize(normalize(normalize u)) = normalize(normalize u)`
for every string `u`. -/
theorem C3_theorem (u : List Char) :
    normalize_url (normalize_url (normalize_url u)) = normalize_url (normalize_url u) := by
  rcases normalize_url_no_hash_query u with ⟨h1, h2⟩
  have e2 : normalize_url (normalize_url u) = rstripSlashes (normalize_url u) :=
    normalize_url_of_no_hash_query h1 h2
  have h3 : '#' ∉ rstripSlashes (normalize_url u) := fun hm => h1 (mem_rstripSlashes hm)
  have h4 : '?' ∉ rstripSlashes (normalize_url u) := fun hm => h2 (mem_rstripSlashes hm)
  rw [e2, normalize_url_of_no_hash_query h3 h4, rstripSlashes_idem]

/-- Claim C3 is false as stated:
`normalize("https://a.com/x/?q=1") = "https://a.com/x/"` but applying
`normalize` once more gives `"https://a.com/x"`. -/
theorem C3_counterexample :
    normalize_url (normalize_url (strL "https://a.com/x/?q=1")) ≠
      normalize_url (strL "https://a.com/x/?q=1") := by decide

/-- Claim C4 (amended): on a page-level load failure the DYNAMIC backend
returns an empty sequence and its multi-source loop always completes with one
entry per source; the STATIC backend instead re-raises the failure
(`raise e`), and the exception propagates out of
`SimpleHTTPCrawler.crawl_multiple_sources`, aborting the loop. -/
theorem C4_theorem (e : PyErr) (src : List Char) :
    LinkCrawler.get_links (Except.error e) src = [] ∧
    (∀ (page : List Char → Except PyErr (List DynElement)) (urls : List (List Char)),
      (LinkCrawler.crawl_multiple_sources page urls).map Prod.fst = urls) ∧
    SimpleHTTPCrawler.get_links (Except.error e) src = Except.error e ∧
    (∀ (fetch : List Char → Except PyErr (List Element)) (rest : List (List Char)),
      fetch src = Except.error e →
      SimpleHTTPCrawler.crawl_multiple_sources fetch (src :: rest) = Except.error e) := by
  refine ⟨rfl, ?_, rfl, ?_⟩
  · intro page urls
    induction urls with
    | nil => rfl
    | cons u us ih => simp [LinkCrawler.crawl_multiple_sources, ih]
  · intro fetch rest h
    unfold SimpleHTTPCrawler.crawl_multiple_sources
    rw [h]
    rfl

/-- Closed instance of `C4_theorem`: a failing fetch aborts the static
multi-source loop with the exception. -/
theorem C4_witness :
    SimpleHTTPCrawler.crawl_multiple_sources (fun _ => Except.error (strL "timeout"))
      (srcA :: []) = Except.error (strL "timeout") :=
  (C4_theorem (strL "timeout") srcA).2.2.2 (fun _ => Except.error (strL "timeout")) [] rfl

/-- Claim C4 is false as stated for the static backend: a load failure makes
`SimpleHTTPCrawler.get_links` re-raise, and the whole multi-source crawl
returns the exception instead of an empty per-source sequence. -/
theorem C4_counterexample :
    SimpleHTTPCrawler.get_links (Except.error (strL "timeout")) srcA =
      Except.error (strL "timeout") ∧
    SimpleHTTPCrawler.crawl_multiple_sources (fun _ => Except.error (strL "timeout"))
      [srcA] = Except.error (strL "timeout") :=
  ⟨rfl, rfl⟩

/-- Claim C8 (amended): the backend is chosen once from the module-level probe
and no launch-time fallback exists: with a successful probe only the dynamic
backend is ever invoked, and if its launch fails the top-level handler turns
the run into an error display with an empty, column-less frame — the static
backend is not tried.  Static runs exactly when the probe fails. -/
theorem C8_theorem (launch : Except PyErr Unit)
    (page : List Char → Except PyErr (List DynElement))
    (fetch : List Char → Except PyErr (List Element))
    (url : List Char) (limit : Nat) :
    (run_crawl true launch page fetch url limit).2 = [Backend.dynamic] ∧
    (run_crawl false launch page fetch url limit).2 = [Backend.static] ∧
    (∀ e, launch = Except.error e →
      run_crawl true launch page fetch url limit = (⟨[], []⟩, [Backend.dynamic])) := by
  refine ⟨?_, ?_, ?_⟩
  · cases launch with
    | error e => rfl
    | ok u => rfl
  · cases h2 : main_http fetch url with
    | ok results => simp [run_crawl, h2]
    | error e2 => simp [run_crawl, h2]
  · intro e he
    subst he
    rfl

/-- Closed instance of `C8_theorem`: a failed dynamic launch under a successful
probe yields the empty error frame with only the dynamic backend invoked. -/
theorem C8_witness :
    run_crawl true (Except.error (strL "browser launch failed")) (fun _ => Except.ok [])
      (fun _ => Except.ok []) srcA 10 = (⟨[], []⟩, [Backend.dynamic]) :=
  (C8_theorem (Except.error (strL "browser launch failed")) (fun _ => Except.ok [])
    (fun _ => Except.ok []) srcA 10).2.2 (strL "browser launch failed") rfl

/-- Claim C8 is false as stated: with the probe succeeding and the dynamic
launch failing, the run does NOT fall back to the static backend — it ends as
an error with an empty frame and only `Backend.dynamic` invoked — even though
the very same static fetch would have produced results (third conjunct). -/
theorem C8_counterexample :
    run_crawl true (Except.error (strL "launch failed")) (fun _ => Except.ok [])
      (fun _ => Except.ok [homeElem]) srcA 10 = (⟨[], []⟩, [Backend.dynamic]) ∧
    Backend.static ∉ [Backend.dynamic] ∧
    (run_crawl false (Except.error (strL "launch failed")) (fun _ => Except.ok [])
      (fun _ => Except.ok [homeElem]) srcA 10).1.rows ≠ [] :=
  ⟨rfl, by decide, by decide⟩

/-- Claim C5 (amended): `process_results` never inspects `isVisible` — its
output is invariant under arbitrarily rewriting every record's visibility flag
— so records with `isVisible = false` that pass the anchor-text filters
contribute to group counts like any other (see `C5_counterexample`). -/
theorem C5_theorem (g : LinkRec → Bool) (l : List LinkRec) (src : List Char) (limit : Nat) :
    process_results [(src, l.map (setVis g))] src limit =
      process_results [(src, l)] src limit := by
  have hl : lookupD [(src, l.map (setVis g))] src = l.map (setVis g) := by
    simp [lookupD]
  have hl2 : lookupD [(src, l)] src = l := by simp [lookupD]
  simp only [process_results, hl, hl2]
  by_cases h : l = []
  · subst h
    rfl
  · rw [if_neg (fun hm => h (List.map_eq_nil_iff.mp hm)), if_neg h,
      retained_map_setVis, groupRows_map_setVis]

/-- Claim C5 is false as stated: a batch whose single record has
`is_visible = false` still produces an output group of count 1. -/
theorem C5_counterexample :
    invisRec.is_visible = false ∧
    (process_results [(srcA, [invisRec])] srcA 10).rows =
      [⟨srcA, strL "Home", strL "https://a.com/h", 1⟩] :=
  ⟨rfl, by decide⟩

/-- Claim C6 (amended): the output rows are sorted by count descending
(non-strict); the href-ascending tiebreak of the original claim does not hold,
and the program fixes no tie order at all — `sort_values` runs pandas' default
stability-unspecified quicksort on the single key `count` (for the small
outputs numpy insertion-sorts, ties keep the groupby's key order, as in
`C6_counterexample`). -/
theorem C6_theorem (results : List (List Char × List LinkRec)) (src : List Char)
    (limit : Nat) :
    ((process_results results src limit).rows).Pairwise
      (fun a b => b.count ≤ a.count) := by
  rw [process_results_rows]
  by_cases he : lookupD results src = []
  · simp [he]
  · rw [if_neg he]
    have htot : ∀ a b : OutRow, Nat.ble b.count a.count = false →
        Nat.ble a.count b.count = true := by
      intro a b hf
      have hnle : ¬ b.count ≤ a.count := fun hle =>
        absurd (Nat.ble_eq_true_of_le hle) (by simp [hf])
      exact Nat.ble_eq_true_of_le (Nat.le_of_lt (Nat.lt_of_not_le hnle))
    have htr : ∀ a b c : OutRow, Nat.ble b.count a.count = true →
        Nat.ble c.count b.count = true → Nat.ble c.count a.count = true := by
      intro a b c h1 h2
      exact Nat.ble_eq_true_of_le (Nat.le_trans (Nat.le_of_ble_eq_true h2)
        (Nat.le_of_ble_eq_true h1))
    have hp := pairwise_insertionSort (fun a b : OutRow => Nat.ble b.count a.count)
      htot htr (groupRows (retained (lookupD results src)))
    have hp2 : (sortByCountDesc (groupRows (retained (lookupD results src)))).Pairwise
        (fun a b : OutRow => b.count ≤ a.count) := by
      unfold sortByCountDesc
      exact hp.imp (fun hab => Nat.le_of_ble_eq_true hab)
    exact hp2.sublist (List.take_sublist _ _)

/-- Claim C6 is false as stated: two groups of equal count come out in anchor
ascending order `("a", …/z)`, `("b", …/a)` — their hrefs are strictly
DESCENDING, violating the href-ascending tiebreak. -/
theorem C6_counterexample :
    (process_results [(srcA, [tieRecA, tieRecB])] srcA 10).rows =
      [⟨srcA, strL "a", strL "https://a.com/z", 1⟩,
        ⟨srcA, strL "b", strL "https://a.com/a", 1⟩] ∧
    strLtB (strL "https://a.com/a") (strL "https://a.com/z") = true :=
  ⟨by decide, by decide⟩

/-- Claim C7 (amended): `process_results` drops records whose TRIMMED anchor
text is empty and records whose RAW anchor text equals `"[No text]"`; the
sentinel comparison is done before trimming, so a record whose anchor text
merely trims to the sentinel is retained (see `C7_counterexample`). -/
theorem C7_theorem (results : List (List Char × List LinkRec)) (src : List Char)
    (limit : Nat) (row : OutRow)
    (h : row ∈ (process_results results src limit).rows) :
    pyStrip row.anchor_text ≠ [] ∧ row.anchor_text ≠ strL "[No text]" := by
  rcases mem_rows_spec h with ⟨_, r, hr, hkey⟩
  have ha : r.anchor_text = row.anchor_text := congrArg (fun k => k.2.1) hkey
  have hf := mem_retained_filters hr
  rw [← ha]
  exact hf

/-- Closed instance of `C7_theorem` on a one-record batch. -/
theorem C7_witness :
    pyStrip (⟨srcA, strL "Home", strL "https://a.com/h", 1⟩ : OutRow).anchor_text ≠ [] ∧
    (⟨srcA, strL "Home", strL "https://a.com/h", 1⟩ : OutRow).anchor_text ≠
      strL "[No text]" :=
  C7_theorem [(srcA, [homeRec])] srcA 10 _ (by decide)

/-- Claim C7 is false as stated: a record whose anchor text is `" [No text]"`
(sentinel with leading whitespace, trimming to the sentinel) survives both
filters and appears in the output. -/
theorem C7_counterexample :
    ∃ row ∈ (process_results [(srcA, [sentinelRec])] srcA 10).rows,
      pyStrip row.anchor_text = strL "[No text]" := by decide

/-- Claim C9 (amended): every output row's count equals the number of records
surviving the ANCHOR-TEXT filters (there is no visibility filter) that share
its `(init_url, anchor_text, href)` key, and every count is at least 1.
Counts computed against the claim's visibility-filtered notion of "retained"
are wrong, see `C9_counterexample`. -/
theorem C9_theorem (results : List (List Char × List LinkRec)) (src : List Char)
    (limit : Nat) (row : OutRow)
    (h : row ∈ (process_results results src limit).rows) :
    row.count = (retained (lookupD results src)).countP (fun r => keyOf r == rowKey row) ∧
      1 ≤ row.count := by
  rcases mem_rows_spec h with ⟨hc, r, hr, hkey⟩
  refine ⟨hc, ?_⟩
  rw [hc]
  exact List.countP_pos_iff.mpr ⟨r, hr, by simp [hkey]⟩

/-- Closed instance of `C9_theorem` on a one-record batch. -/
theorem C9_witness :
    (⟨srcA, strL "Home", strL "https://a.com/h", 1⟩ : OutRow).count =
      (retained (lookupD [(srcA, [homeRec])] srcA)).countP
        (fun r => keyOf r == rowKey ⟨srcA, strL "Home", strL "https://a.com/h", 1⟩) ∧
      1 ≤ (⟨srcA, strL "Home", strL "https://a.com/h", 1⟩ : OutRow).count :=
  C9_theorem [(srcA, [homeRec])] srcA 10 _ (by decide)

/-- Claim C9 is false as stated: with one invisible record the output group has
count 1, but zero records survive the visibility-and-anchor-text filters the
claim counts with. -/
theorem C9_counterexample :
    ∃ row ∈ (process_results [(srcA, [invisRec])] srcA 10).rows,
      row.count ≠ (specRetained [invisRec]).countP (fun r => keyOf r == rowKey row) := by
  decide

/-- Claim C10: `process_results` reads nothing of `results` beyond
`results.get(source_url, [])` — outputs agree whenever the lookups agree — and
an absent key yields the empty frame with columns
`init_url, anchor_text, href, count`. -/
theorem C10_theorem :
    (∀ (r1 r2 : List (List Char × List LinkRec)) (src : List Char) (limit : Nat),
      lookupD r1 src = lookupD r2 src →
      process_results r1 src limit = process_results r2 src limit) ∧
    (∀ (res : List (List Char × List LinkRec)) (src : List Char) (limit : Nat),
      (∀ p ∈ res, p.1 ≠ src) → process_results res src limit = ⟨outCols, []⟩) := by
  constructor
  · intro r1 r2 src limit h
    simp only [process_results, h]
  · intro res src limit h
    simp only [process_results, lookupD_eq_nil_of_absent res src h]
    rfl

/-- Closed instance of `C10_theorem`: agreement on the looked-up key and the
absent-key shape, at concrete inputs. -/
theorem C10_witness :
    (process_results [(strL "u", [homeRec])] (strL "v") 5 =
      process_results [] (strL "v") 5) ∧
    process_results [(strL "u", [homeRec])] (strL "v") 5 = ⟨outCols, []⟩ :=
  ⟨C10_theorem.1 _ _ _ 5 (by decide), C10_theorem.2 _ _ 5 (by decide)⟩
